import Mathlib

/-!
Verification development for the LexOrigin legislative-intent pipeline.

The definitions below are shallow embeddings of the TypeScript source:

* `convertAnalysis`, `convertCitation` — `convertAnalysis` in `App.tsx`;
* `getConsensusIcon` — `AnalysisPanel.tsx`;
* `controversyDot` — the controversy dot in the MVP analysis panel
  (second half of `Timeline.tsx`);
* `assistantMessage` — the confidence-caveat logic of `handleSend` in
  `LegalAssistant.tsx`;
* `handleSearch` — the search controller of the web app (`handleSearch`);
* `AppState`/`step`/`run` — the analysis-request state machine of `App.tsx`
  (`handleLawSelect` / `handleAnalyze`), with the network suspension point
  made explicit as separate start/completion events;
* `parseDate`, timeline layout, and the citation-token renderers follow
  further down.

JavaScript numbers are modelled as `ℚ` (or `Int` where the source contract
is integral), strings as Lean `String`, and absent (`undefined`) fields as
`Option`.  `x || d` on strings is modelled with the empty string falsy, as
in JavaScript.
-/

namespace LexOrigin

/-- ASCII lowering of a list of characters; models JavaScript
`toLowerCase` on the ASCII data handled by the app. -/
def lowerChars (cs : List Char) : List Char := cs.map Char.toLower

/-- Does `needle` occur as a contiguous sublist of `hay`?  Models
JavaScript `String.prototype.includes`. -/
def charsContain (hay needle : List Char) : Bool :=
  match hay with
  | [] => needle.isEmpty
  | _ :: t => needle.isPrefixOf hay || charsContain t needle

/-- Case-insensitive substring test: models
`hay.toLowerCase().includes(needle.toLowerCase())`. -/
def strContainsCI (hay needle : String) : Bool :=
  charsContain (lowerChars hay.data) (lowerChars needle.data)

/-! ## Data model (API payload shapes and client records) -/

/-- One citation tuple of an analysis response (`DebateFromAPI` in
`apiService.ts`); every field may be absent in the raw payload. -/
structure CitationFromAPI where
  speaker : Option String
  party : Option String
  date : Option String
  text : Option String
  sentiment : Option ℚ
  topic : Option String
deriving DecidableEq

/-- Analysis response payload (`AnalysisFromAPI` in `apiService.ts`). -/
structure AnalysisFromAPI where
  summary : String
  controversy_level : Option String
  consensus_color : Option String
  citations : Option (List CitationFromAPI)
  key_arguments : Option (List String)
deriving DecidableEq

/-- Client-side debate quote (`DebateQuote` in `types.ts`). -/
structure DebateQuote where
  id : String
  speakerName : String
  party : String
  date : String
  text : String
  sentimentScore : ℚ
  topic : String
deriving DecidableEq

/-- Client-side analysis data as built by `convertAnalysis` in `App.tsx`
(field names follow the source object literal). -/
structure AnalysisData where
  synthesis : String
  controversy_level : Option String
  consensus_color : Option String
  key_arguments : List String
deriving DecidableEq

/-- JavaScript `v || d` for an optional string field: both an absent field
and the empty string are falsy and fall back to the default. -/
def strOrDefault (v : Option String) (d : String) : String :=
  match v with
  | none => d
  | some s => if s = "" then d else s

/-- One element of the `citations.map((cite, idx) => ...)` in
`convertAnalysis` (`App.tsx`). -/
def convertCitation (idx : Nat) (cite : CitationFromAPI) : DebateQuote :=
  { id := "quote-" ++ toString idx
    speakerName := strOrDefault cite.speaker "Unknown Speaker"
    party := strOrDefault cite.party "Unknown"
    date := strOrDefault cite.date "Unknown"
    text := (cite.text.getD "")
    sentimentScore := (cite.sentiment.getD 0)
    topic := strOrDefault cite.topic "General Debate" }

/-- The indexed map over the citation list, keeping the running index
that becomes the quote id. -/
def convertCitations (idx : Nat) : List CitationFromAPI → List DebateQuote
  | [] => []
  | c :: cs => convertCitation idx c :: convertCitations (idx + 1) cs

/-- `convertAnalysis` from `App.tsx`: converts an API analysis payload to
the client analysis data plus the list of debate quotes. -/
def convertAnalysis (r : AnalysisFromAPI) : AnalysisData × List DebateQuote :=
  ({ synthesis := r.summary
     controversy_level := r.controversy_level
     consensus_color := r.consensus_color
     key_arguments := r.key_arguments.getD [] },
   convertCitations 0 (r.citations.getD []))

/-! ## Consensus icon and controversy display -/

/-- The three icons `getConsensusIcon` can produce (`AnalysisPanel.tsx`). -/
inductive ConsensusIcon
  | trendingDown
  | trendingUp
  | minus
deriving DecidableEq

/-- `getConsensusIcon` from `AnalysisPanel.tsx`: red is trending-down,
green is trending-up, everything else (missing values included) falls to
the `default` switch branch, the neutral Minus icon. -/
def getConsensusIcon (color : Option String) : ConsensusIcon :=
  if color = some "red" then .trendingDown
  else if color = some "green" then .trendingUp
  else .minus

/-- Display buckets of the controversy indicator. -/
inductive ControversyBucket
  | low
  | medium
  | high
deriving DecidableEq

/-- The controversy dot of the MVP analysis panel (second component in
`Timeline.tsx`): `score > 7` red/high, `score > 4` yellow/medium, else
green/low.  The response contract declares the score an integer 1-10. -/
def controversyDot (score : Int) : ControversyBucket :=
  if score > 7 then .high else if score > 4 then .medium else .low

/-! ## Assistant confidence caveat -/

/-- The caveat appended by `handleSend` in `LegalAssistant.tsx`. -/
def confidenceCaveat : String :=
  "\n\n⚠️ Cette réponse est basée sur un contexte limité. Veuillez vérifier les sources officielles."

/-- The user-visible assistant message built by `handleSend` in
`LegalAssistant.tsx` from a direct-question response. -/
def assistantMessage (answer : String) (confidence : ℚ) : String :=
  if confidence < 0.5 then answer ++ confidenceCaveat else answer

/-! ## Search controller -/

/-- A law record as served by the backend (`LawFromAPI`). -/
structure LawFromAPI where
  id : String
  title : String
  law_name : String
  sectionNum : String
  section_title : Option String
  text : String
  date : String
  lawType : Option String
deriving DecidableEq

/-- Metadata of a semantic search result (`SearchResult.metadata`). -/
structure SearchMetadata where
  law_name : String
  sectionNum : String
  section_title : Option String
  law_type : Option String
deriving DecidableEq

/-- A semantic search result (`SearchResult` in `apiService.ts`). -/
structure SearchResult where
  id : String
  document : String
  metadata : SearchMetadata
  relevance_score : ℚ
deriving DecidableEq

/-- The per-result conversion inside the semantic branch of
`handleSearch`: search results are reshaped into the law format. -/
def convertSearchResult (r : SearchResult) : LawFromAPI :=
  { id := r.id
    title := strOrDefault r.metadata.section_title
      (r.metadata.law_name ++ " - Section " ++ r.metadata.sectionNum)
    text := r.document
    date := "Unknown"
    law_name := r.metadata.law_name
    sectionNum := r.metadata.sectionNum
    section_title := r.metadata.section_title
    lawType := r.metadata.law_type }

/-- Outcome of the semantic-search network call: a parsed result list, a
non-ok HTTP response, or a thrown error (network failure). -/
inductive SemanticOutcome
  | ok (results : List SearchResult)
  | httpError
  | thrown
deriving DecidableEq

/-- The local filter used in the `catch` fallback of the semantic branch:
title and content only. -/
def localTitleText (q : String) (law : LawFromAPI) : Bool :=
  strContainsCI law.title q || strContainsCI law.text q

/-- The local filter of the non-semantic branch: title, content, and
statute name (the statute-name check is guarded by JS truthiness of the
field, i.e. skipped when the name is empty). -/
def localFull (q : String) (law : LawFromAPI) : Bool :=
  strContainsCI law.title q || strContainsCI law.text q ||
    (law.law_name != "" && strContainsCI law.law_name q)

/-- `handleSearch` from the web app: queries shorter than 2 characters
reset to the full law set; the semantic branch runs when AI search is on
and the query has at least 3 characters, falling back on a thrown error
to the title/content filter and leaving the previous result set in place
on a non-ok response; otherwise the full local filter runs. -/
def handleSearch (laws prev : List LawFromAPI) (useAISearch : Bool)
    (semantic : SemanticOutcome) (query : String) : List LawFromAPI :=
  if query.length < 2 then laws
  else if useAISearch ∧ 3 ≤ query.length then
    match semantic with
    | .ok results => results.map convertSearchResult
    | .httpError => prev
    | .thrown => laws.filter (localTitleText query)
  else laws.filter (localFull query)

/-! ## Analysis state machine (`App.tsx`)

`handleAnalyze` in `App.tsx` sets the loading flag, awaits the network
call, and then commits the converted response to the analysis state
unconditionally: the completion handler never compares the originating
request's law with the currently selected law.  The suspension point is
made explicit by splitting the call into a start event and a completion
event; the completion events carry the originating law id exactly as the
closure in the source does, and ignore it exactly as the source does. -/

/-- Client analysis state (`AnalysisState` in `types.ts`), with the
analysis payload left opaque. -/
structure AnalysisState where
  isLoading : Bool
  data : Option String
  relatedQuotes : List DebateQuote
  error : Option String
deriving DecidableEq

/-- The part of the `App.tsx` component state relevant to analysis. -/
structure AppState where
  selectedLaw : Option String
  analysis : AnalysisState
deriving DecidableEq

/-- User-input and network-completion events driving `App.tsx`. -/
inductive UiEvent
  | selectLaw (lawId : String)
  | analyzeStart (lawId : String)
  | analyzeSuccess (lawId : String) (payload : String) (quotes : List DebateQuote)
  | analyzeFailure (lawId : String) (message : String)

/-- One event step of `App.tsx`: `selectLaw` is `handleLawSelect` (select
and reset the analysis state); `analyzeStart` is the code before the
`await` in `handleAnalyze`; the completion events are its `then`/`catch`
continuations, which commit without any staleness comparison. -/
def step (s : AppState) (e : UiEvent) : AppState :=
  match e with
  | .selectLaw lawId =>
      { selectedLaw := some lawId
        analysis := { isLoading := false, data := none, relatedQuotes := [], error := none } }
  | .analyzeStart _ =>
      { s with analysis := { s.analysis with isLoading := true, error := none } }
  | .analyzeSuccess _ payload quotes =>
      { s with analysis :=
          { isLoading := false, data := some payload, relatedQuotes := quotes, error := none } }
  | .analyzeFailure _ message =>
      { s with analysis := { s.analysis with isLoading := false, error := some message } }

/-- Run a sequence of events from a state. -/
def run (s : AppState) (es : List UiEvent) : AppState := es.foldl step s

/-! ## Claim theorems (first group) -/

/-- C1 (code_bug exhibit): fire an analysis for law A, switch to law B,
fire an analysis for law B, let B's response arrive, then let A's stale
response arrive last.  The code commits A's payload to the analysis state
even though law B is selected: stale responses are not discarded. -/
theorem stale_analysis_response_commits :
    (run { selectedLaw := some "LAW-A",
           analysis := { isLoading := false, data := none, relatedQuotes := [], error := none } }
      [UiEvent.analyzeStart "LAW-A",
       UiEvent.selectLaw "LAW-B",
       UiEvent.analyzeStart "LAW-B",
       UiEvent.analyzeSuccess "LAW-B" "analysis-of-B" [],
       UiEvent.analyzeSuccess "LAW-A" "analysis-of-A" []]).selectedLaw = some "LAW-B" ∧
    (run { selectedLaw := some "LAW-A",
           analysis := { isLoading := false, data := none, relatedQuotes := [], error := none } }
      [UiEvent.analyzeStart "LAW-A",
       UiEvent.selectLaw "LAW-B",
       UiEvent.analyzeStart "LAW-B",
       UiEvent.analyzeSuccess "LAW-B" "analysis-of-B" [],
       UiEvent.analyzeSuccess "LAW-A" "analysis-of-A" []]).analysis.data = some "analysis-of-A" :=
  ⟨rfl, rfl⟩

/-- C8: with the 1-10 integer score variant, the presentation dot maps a
score of at most 4 to low, 5 through 7 to medium, and at least 8 to high. -/
theorem controversy_buckets (s : Int) :
    (s ≤ 4 → controversyDot s = .low) ∧
    (5 ≤ s → s ≤ 7 → controversyDot s = .medium) ∧
    (8 ≤ s → controversyDot s = .high) := by
  refine ⟨fun h => ?_, fun h1 h2 => ?_, fun h => ?_⟩ <;>
    simp only [controversyDot] <;> split_ifs <;> first | rfl | omega

/-- Witness for C8 at the concrete scores 3, 6 and 9. -/
theorem controversy_buckets_witness :
    controversyDot 3 = .low ∧ controversyDot 6 = .medium ∧ controversyDot 9 = .high :=
  ⟨(controversy_buckets 3).1 (by norm_num),
   (controversy_buckets 6).2.1 (by norm_num) (by norm_num),
   (controversy_buckets 9).2.2 (by norm_num)⟩

/-- C9: a direct-question answer with confidence below 0.5 gets the
caveat appended; at or above 0.5 the answer is shown unmodified. -/
theorem confidence_caveat (answer : String) (confidence : ℚ) :
    (confidence < 0.5 → assistantMessage answer confidence = answer ++ confidenceCaveat) ∧
    (0.5 ≤ confidence → assistantMessage answer confidence = answer) := by
  unfold assistantMessage
  constructor
  · intro h; rw [if_pos h]
  · intro h; rw [if_neg (not_lt.mpr h)]

/-- Witness for C9 at confidences 0.25 and 0.75. -/
theorem confidence_caveat_witness :
    assistantMessage "Réponse." 0.25 = "Réponse." ++ confidenceCaveat ∧
    assistantMessage "Réponse." 0.75 = "Réponse." :=
  ⟨(confidence_caveat "Réponse." 0.25).1 (by norm_num),
   (confidence_caveat "Réponse." 0.75).2 (by norm_num)⟩

/-- Index lemma for the indexed citation conversion. -/
theorem convertCitations_get (k : Nat) (l : List CitationFromAPI) (i : Nat) :
    (convertCitations k l).get? i = (l.get? i).map (convertCitation (k + i)) := by
  induction l generalizing k i with
  | nil => simp [convertCitations]
  | cons c cs ih =>
    cases i with
    | zero => simp [convertCitations]
    | succ j =>
      simp only [convertCitations, List.get?_cons_succ]
      rw [ih (k + 1) j]
      have h : k + 1 + j = k + (j + 1) := by omega
      rw [h]

/-- Length lemma for the indexed citation conversion. -/
theorem convertCitations_length (k : Nat) (l : List CitationFromAPI) :
    (convertCitations k l).length = l.length := by
  induction l generalizing k with
  | nil => rfl
  | cons c cs ih => simp [convertCitations, ih]

/-- C10: converting an analysis payload never fails: an absent citations
list yields no quotes, the conversion is index-preserving, and every
missing citation field is defaulted (speaker to "Unknown Speaker", party
and date to "Unknown", text to the empty string, sentiment to 0, topic to
"General Debate"). -/
theorem convertAnalysis_total_defaults (r : AnalysisFromAPI) :
    (r.citations = none → (convertAnalysis r).2 = []) ∧
    (convertAnalysis r).2.length = (r.citations.getD []).length ∧
    ∀ i cite, (r.citations.getD []).get? i = some cite →
      (convertAnalysis r).2.get? i = some (convertCitation i cite) ∧
      (cite.speaker = none → (convertCitation i cite).speakerName = "Unknown Speaker") ∧
      (cite.party = none → (convertCitation i cite).party = "Unknown") ∧
      (cite.date = none → (convertCitation i cite).date = "Unknown") ∧
      (cite.text = none → (convertCitation i cite).text = "") ∧
      (cite.sentiment = none → (convertCitation i cite).sentimentScore = 0) ∧
      (cite.topic = none → (convertCitation i cite).topic = "General Debate") := by
  refine ⟨fun h => ?_, ?_, fun i cite hget => ?_⟩
  · simp [convertAnalysis, h, convertCitations]
  · simpa [convertAnalysis] using convertCitations_length 0 (r.citations.getD [])
  · refine ⟨?_, fun h => ?_, fun h => ?_, fun h => ?_, fun h => ?_, fun h => ?_, fun h => ?_⟩
    · rw [show (convertAnalysis r).2 = convertCitations 0 (r.citations.getD []) from rfl,
        convertCitations_get, hget]
      simp
    all_goals simp [convertCitation, strOrDefault, h]

/-- A citation payload with every field absent. -/
def emptyCitation : CitationFromAPI :=
  { speaker := none, party := none, date := none, text := none,
    sentiment := none, topic := none }

/-- An analysis payload with one completely empty citation. -/
def oneEmptyCitationPayload : AnalysisFromAPI :=
  { summary := "Synthèse.", controversy_level := some "low",
    consensus_color := some "green", citations := some [emptyCitation],
    key_arguments := none }

/-- Witness for C10 on a payload whose single citation has every field
absent: the produced quote exists and carries all the defaults. -/
theorem convertAnalysis_total_defaults_witness :
    (convertAnalysis oneEmptyCitationPayload).2.get? 0 = some (convertCitation 0 emptyCitation) ∧
    (convertCitation 0 emptyCitation).speakerName = "Unknown Speaker" ∧
    (convertCitation 0 emptyCitation).party = "Unknown" ∧
    (convertCitation 0 emptyCitation).date = "Unknown" ∧
    (convertCitation 0 emptyCitation).text = "" ∧
    (convertCitation 0 emptyCitation).sentimentScore = 0 ∧
    (convertCitation 0 emptyCitation).topic = "General Debate" := by
  have h := (convertAnalysis_total_defaults oneEmptyCitationPayload).2.2 0 emptyCitation rfl
  exact ⟨h.1, h.2.1 rfl, h.2.2.1 rfl, h.2.2.2.1 rfl, h.2.2.2.2.1 rfl,
    h.2.2.2.2.2.1 rfl, h.2.2.2.2.2.2 rfl⟩

/-- An analysis payload with the consensus colour missing. -/
def missingColorPayload : AnalysisFromAPI :=
  { summary := "Synthèse.", controversy_level := some "low",
    consensus_color := none, citations := none, key_arguments := none }

/-- C6 counterexample: on a payload with `consensus_color` missing, the
parse pipeline (`convertAnalysis`) leaves the field absent; it does not
default it to any of the enumeration values, neutral or otherwise. -/
theorem consensus_color_not_defaulted_cex :
    (convertAnalysis missingColorPayload).1.consensus_color = none ∧
    (convertAnalysis missingColorPayload).1.consensus_color ≠ some "red" ∧
    (convertAnalysis missingColorPayload).1.consensus_color ≠ some "yellow" ∧
    (convertAnalysis missingColorPayload).1.consensus_color ≠ some "green" ∧
    (convertAnalysis missingColorPayload).1.consensus_color ≠ some "gray" := by
  refine ⟨rfl, ?_, ?_, ?_, ?_⟩ <;> simp [convertAnalysis, missingColorPayload]

/-- C6 amended: the conversion never fails on a missing or unrecognised
consensus colour — the field is passed through unvalidated — and the
neutral treatment happens in the presentation layer: the consensus icon
falls to the neutral Minus icon for every value other than red or green,
a missing value included. -/
theorem consensus_color_passthrough_neutral (r : AnalysisFromAPI) (c : Option String) :
    (convertAnalysis r).1.consensus_color = r.consensus_color ∧
    (c ≠ some "red" → c ≠ some "green" → getConsensusIcon c = .minus) := by
  constructor
  · rfl
  · intro h1 h2
    unfold getConsensusIcon
    rw [if_neg h1, if_neg h2]

/-- Witness for C6 (amended) at the missing-colour payload. -/
theorem consensus_color_passthrough_neutral_witness :
    (convertAnalysis missingColorPayload).1.consensus_color = none ∧
    getConsensusIcon none = .minus := by
  have h := consensus_color_passthrough_neutral missingColorPayload none
  exact ⟨h.1, h.2 (by simp) (by simp)⟩

/-- A law whose statute name alone matches the query "fraud". -/
def fraudLaw : LawFromAPI :=
  { id := "L1", title := "Titre", law_name := "Fraud Act", sectionNum := "1",
    section_title := none, text := "Texte", date := "Unknown", lawType := none }

/-- C4 counterexample: with a single law whose statute name alone matches
the query, a thrown semantic search returns the empty list, while the
full local filter over title, content and statute name returns the law:
the fallback is not the claimed local-filter result set. -/
theorem semantic_failure_fallback_cex :
    handleSearch [fraudLaw] [] true .thrown "fraud" = [] ∧
    [fraudLaw].filter (localFull "fraud") = [fraudLaw] := by
  constructor <;> decide

/-- C4 amended: on a thrown semantic search the controller returns the
local filter over title and content only, applied to the last known full
law set (the statute name is consulted only in the non-semantic local
branch); no error propagates and no loading state is left behind. -/
theorem semantic_failure_fallback_amended (laws prev : List LawFromAPI) (q : String) :
    (3 ≤ q.length →
      handleSearch laws prev true .thrown q = laws.filter (localTitleText q)) ∧
    (2 ≤ q.length → ∀ sem,
      handleSearch laws prev false sem q = laws.filter (localFull q)) := by
  unfold handleSearch
  constructor
  · intro h
    rw [if_neg (by omega), if_pos ⟨rfl, h⟩]
  · intro h sem
    rw [if_neg (by omega), if_neg (by simp)]

/-- Witness for C4 (amended) at the concrete query "fraud". -/
theorem semantic_failure_fallback_amended_witness :
    handleSearch [fraudLaw] [] true .thrown "fraud" = [fraudLaw].filter (localTitleText "fraud") ∧
    handleSearch [fraudLaw] [] false .thrown "fr" = [fraudLaw].filter (localFull "fr") :=
  ⟨(semantic_failure_fallback_amended [fraudLaw] [] "fraud").1 (by decide),
   (semantic_failure_fallback_amended [fraudLaw] [] "fr").2 (by decide) .thrown⟩

/-! ## Date normalizer (`parseDate` in `Timeline.tsx` / `InteractiveTimeline.tsx`)

The two `parseDate` copies are textually identical in their parsing logic;
one embedding covers both.  The regexes are embedded as explicit scanners
with JavaScript first-match semantics: the whole pattern is attempted at
each start position from the left.  In each pattern, the character classes
on the two sides of every greedy quantifier are disjoint, so greedy
maximal munch without backtracking computes exactly the regex match.
`\w`, `\d` are the ASCII classes; `\s` is modelled by its ASCII members,
which covers all whitespace occurring in the app's data. -/

/-- JavaScript `\w`: ASCII letters, digits, underscore. -/
def isWordCh (c : Char) : Bool := c.isAlpha || c.isDigit || c = '_'

/-- JavaScript `\s`, restricted to its ASCII members. -/
def isSpaceCh (c : Char) : Bool :=
  c = ' ' || c = '\t' || c = '\n' || c = '\r' || c = '\x0b' || c = '\x0c'

/-- JavaScript `\d`. -/
def isDigitCh (c : Char) : Bool := c.isDigit

/-- Numeric value of a digit string, as `parseInt` computes it on the
all-digit captures produced here. -/
def digitsVal (ds : List Char) : Int :=
  (ds.foldl (fun a c => a * 10 + (c.toNat - 48)) 0 : Nat)

/-- Attempt the long-format regex `(\w+),?\s+(\w+)\s+(\d+),?\s+(\d{4})`
at the current position; returns the four captures.  The optional commas
are deterministic: a comma must be consumed when present, since a comma
can never satisfy the following `\s+`. -/
def matchLongAt (cs : List Char) : Option (List Char × List Char × List Char × List Char) :=
  let (w1, r1) := cs.span isWordCh
  if w1.isEmpty then none else
  let r1 := match r1 with | ',' :: t => t | other => other
  let (s1, r2) := r1.span isSpaceCh
  if s1.isEmpty then none else
  let (w2, r3) := r2.span isWordCh
  if w2.isEmpty then none else
  let (s2, r4) := r3.span isSpaceCh
  if s2.isEmpty then none else
  let (d1, r5) := r4.span isDigitCh
  if d1.isEmpty then none else
  let r5 := match r5 with | ',' :: t => t | other => other
  let (s3, r6) := r5.span isSpaceCh
  if s3.isEmpty then none else
  match r6 with
  | a :: b :: c :: d :: _ =>
      if [a, b, c, d].all isDigitCh then some (w1, w2, d1, [a, b, c, d]) else none
  | _ => none

/-- Attempt the ISO regex `(\d{4})-(\d{2})-(\d{2})` at the current
position; returns the three captures. -/
def matchIsoAt (cs : List Char) : Option (List Char × List Char × List Char) :=
  match cs with
  | a :: b :: c :: d :: '-' :: e :: f :: '-' :: g :: h :: _ =>
      if [a, b, c, d].all isDigitCh && [e, f].all isDigitCh && [g, h].all isDigitCh
      then some ([a, b, c, d], [e, f], [g, h]) else none
  | _ => none

/-- First match of an anchored attempt function, scanning start positions
left to right — JavaScript unanchored `match` semantics. -/
def firstMatch {α : Type} (m : List Char → Option α) : List Char → Option α
  | [] => m []
  | c :: t =>
      match m (c :: t) with
      | some r => some r
      | none => firstMatch m t

/-- Days since 1970-01-01 of the first day of a Gregorian month
(`y` any year, `m` in 1..12); the standard civil-from-days arithmetic. -/
def daysFromCivil (y m d : Int) : Int :=
  let y2 := if m ≤ 2 then y - 1 else y
  let era := Int.ediv y2 400
  let yoe := y2 - era * 400
  let mp := Int.emod (m + 9) 12
  let doy := Int.ediv (153 * mp + 2) 5 + d - 1
  let doe := yoe * 365 + Int.ediv yoe 4 - Int.ediv yoe 100 + doy
  era * 146097 + doe - 719468

/-- The instant of JavaScript `new Date(y, m, d)` (month 0-based, with
overflow normalization and the 0..99 → 1900-relative year rule), at day
granularity: the source only compares these values and takes ratios of
their differences, both invariant under the ms-per-day scale factor. -/
def jsDateInstant (y m d : Int) : Int :=
  let y1 := if 0 ≤ y ∧ y ≤ 99 then y + 1900 else y
  let yn := y1 + Int.ediv m 12
  let mn := Int.emod m 12
  daysFromCivil yn (mn + 1) 1 + (d - 1)

/-- The fixed month table of `parseDate`, looked up by exact,
case-sensitive key. -/
def monthIndex (m : String) : Option Int :=
  if m = "January" then some 0
  else if m = "February" then some 1
  else if m = "March" then some 2
  else if m = "April" then some 3
  else if m = "May" then some 4
  else if m = "June" then some 5
  else if m = "July" then some 6
  else if m = "August" then some 7
  else if m = "September" then some 8
  else if m = "October" then some 9
  else if m = "November" then some 10
  else if m = "December" then some 11
  else none

/-- The long-format strategy of `parseDate`: a long-format regex match
whose month capture resolves in the month table. -/
def longStrategy (s : String) : Option Int :=
  match firstMatch matchLongAt s.data with
  | some (_, mon, day, year) =>
      (monthIndex (String.mk mon)).map fun m =>
        jsDateInstant (digitsVal year) m (digitsVal day)
  | none => none

/-- The month capture of a long-format match, if any. -/
def longMonthOf (s : String) : Option String :=
  (firstMatch matchLongAt s.data).map fun r => String.mk r.2.1

/-- The ISO strategy of `parseDate`. -/
def isoStrategy (s : String) : Option Int :=
  (firstMatch matchIsoAt s.data).map fun r =>
    jsDateInstant (digitsVal r.1) (digitsVal r.2.1 - 1) (digitsVal r.2.2)

/-- `parseDate`: empty and literal "Unknown" strings are unparseable;
otherwise the long format, then the ISO format, then the host `new
Date(string)` parse (a collaborator outside the source, taken as a
parameter) are attempted in order. -/
def parseDate (native : String → Option Int) (s : String) : Option Int :=
  if s = "" ∨ s = "Unknown" then none
  else
    match longStrategy s with
    | some t => some t
    | none =>
        match isoStrategy s with
        | some t => some t
        | none => native s

/-! ## Timeline layout (`InteractiveTimeline.tsx` / `Timeline.tsx`) -/

/-- A timeline event (`TimelineEvent` in `InteractiveTimeline.tsx`). -/
structure TimelineEvent where
  date : String
  label : String
  party : Option String
deriving DecidableEq

/-- Insert into a key-sorted list, after existing equal keys — the
stable order produced by the JS sort comparator `a.time - b.time`. -/
def insertByKey {α : Type} (x : α × Int) : List (α × Int) → List (α × Int)
  | [] => [x]
  | y :: ys => if y.2 ≤ x.2 then y :: insertByKey x ys else x :: y :: ys

/-- Stable sort by key (insertion from the left). -/
def sortByKey {α : Type} (l : List (α × Int)) : List (α × Int) :=
  l.foldl (fun acc x => insertByKey x acc) []

/-- `eventsWithDates`: parse each event's date, drop unparseable ones,
sort ascending by parsed instant. -/
def eventsWithDates (native : String → Option Int) (events : List TimelineEvent) :
    List (TimelineEvent × Int) :=
  sortByKey (events.filterMap fun e => (parseDate native e.date).map fun t => (e, t))

/-- The position of one node: 50 for a single event, otherwise
`5 + ((time − start) / range) * 90`. -/
def positionPercent (n : Nat) (start range t : Int) : ℚ :=
  if n = 1 then 50 else 5 + (((t - start : Int) : ℚ) / ((range : Int) : ℚ)) * 90

/-- Layout over the filtered, sorted event list: no output on an empty
list; otherwise `range = endDate - startDate || 1` and one position per
event. -/
def layoutOn (l : List (TimelineEvent × Int)) : List ℚ :=
  match l with
  | [] => []
  | x :: xs =>
      let start := x.2
      let endD := ((x :: xs).getLast (List.cons_ne_nil x xs)).2
      let range := if endD - start = 0 then 1 else endD - start
      (x :: xs).map fun e => positionPercent (x :: xs).length start range e.2

/-- The positions computed by the timeline component. -/
def timelinePositions (native : String → Option Int) (events : List TimelineEvent) : List ℚ :=
  layoutOn (eventsWithDates native events)

/-! ## Claim theorems: date normalizer -/

/-- C3 counterexample: on `"Foo, Bar 1, 2023 2024-05-06"` the long
verbose pattern structurally matches with month capture `"Bar"`, which is
not one of the twelve month names — yet the normalizer is not
unparseable: it retries the ISO strategy on the same input and returns
the instant of `new Date(2024, 4, 6)`. -/
theorem unknown_month_retries_cex :
    longMonthOf "Foo, Bar 1, 2023 2024-05-06" = some "Bar" ∧
    monthIndex "Bar" = none ∧
    parseDate (fun _ => none) "Foo, Bar 1, 2023 2024-05-06" = some (jsDateInstant 2024 4 6) :=
  ⟨by decide, by decide, by decide⟩

/-- C3 amended: when the long verbose pattern matches but the month name
is not one of the fixed twelve, the long strategy yields nothing and the
normalizer falls through to the ISO pattern and then the generic host
parse on that same input; it returns unparseable only when those also
fail. -/
theorem unknown_month_fallthrough (native : String → Option Int) (s mon : String)
    (h1 : longMonthOf s = some mon) (h2 : monthIndex mon = none) :
    parseDate native s =
      (match isoStrategy s with
       | some t => some t
       | none => native s) := by
  have hs : ¬(s = "" ∨ s = "Unknown") := by
    rintro (rfl | rfl)
    · rw [show longMonthOf "" = none from by decide] at h1
      exact Option.noConfusion h1
    · rw [show longMonthOf "Unknown" = none from by decide] at h1
      exact Option.noConfusion h1
  have hlong : longStrategy s = none := by
    unfold longStrategy
    unfold longMonthOf at h1
    cases hm : firstMatch matchLongAt s.data with
    | none => rfl
    | some r =>
      obtain ⟨w, m2, d2, y2⟩ := r
      rw [hm] at h1
      simp only [Option.map_some', Option.some.injEq] at h1
      show (monthIndex (String.mk m2)).map
          (fun m => jsDateInstant (digitsVal y2) m (digitsVal d2)) = none
      rw [h1, h2]
      rfl
  unfold parseDate
  rw [if_neg hs, hlong]

/-- Witness for C3 (amended) on `"Foo, Bar 1, 2023"`: unknown month, no
ISO match, host parse fails — the result is unparseable. -/
theorem unknown_month_fallthrough_witness :
    parseDate (fun _ => none) "Foo, Bar 1, 2023" = none :=
  (unknown_month_fallthrough (fun _ => none) "Foo, Bar 1, 2023" "Bar"
    (by decide) (by decide)).trans (by decide)

/-! ## Claim theorems: timeline layout -/

/-- Membership under key insertion. -/
theorem mem_insertByKey {α : Type} (x a : α × Int) (l : List (α × Int)) :
    a ∈ insertByKey x l ↔ a = x ∨ a ∈ l := by
  induction l with
  | nil => simp [insertByKey]
  | cons y ys ih =>
    simp only [insertByKey]
    split_ifs with h
    · simp only [List.mem_cons, ih]
      tauto
    · simp only [List.mem_cons]

/-- Key insertion preserves key-sortedness. -/
theorem sorted_insertByKey {α : Type} (x : α × Int) (l : List (α × Int))
    (h : l.Sorted (fun p q => p.2 ≤ q.2)) :
    (insertByKey x l).Sorted (fun p q => p.2 ≤ q.2) := by
  induction l with
  | nil => simp [insertByKey]
  | cons y ys ih =>
    rw [List.sorted_cons] at h
    obtain ⟨hy, hys⟩ := h
    simp only [insertByKey]
    split_ifs with hle
    · rw [List.sorted_cons]
      refine ⟨fun b hb => ?_, ih hys⟩
      rcases (mem_insertByKey x b ys).1 hb with rfl | hb
      · exact hle
      · exact hy b hb
    · rw [List.sorted_cons]
      refine ⟨fun b hb => ?_, List.sorted_cons.2 ⟨hy, hys⟩⟩
      rcases List.mem_cons.1 hb with rfl | hb
      · exact le_of_not_le hle
      · exact le_trans (le_of_not_le hle) (hy b hb)

/-- The stable sort is key-sorted. -/
theorem sorted_sortByKey {α : Type} (l : List (α × Int)) :
    (sortByKey l).Sorted (fun p q => p.2 ≤ q.2) := by
  have main : ∀ (m : List (α × Int)) (acc : List (α × Int)),
      acc.Sorted (fun p q => p.2 ≤ q.2) →
      (m.foldl (fun acc x => insertByKey x acc) acc).Sorted (fun p q => p.2 ≤ q.2) := by
    intro m
    induction m with
    | nil => exact fun acc h => h
    | cons x xs ih => exact fun acc h => ih _ (sorted_insertByKey x acc h)
  exact main l [] (by simp)

/-- In a key-sorted list every key is at most the last key. -/
theorem sorted_le_getLast {α : Type} {l : List (α × Int)}
    (h : l.Sorted (fun p q => p.2 ≤ q.2)) (hne : l ≠ []) :
    ∀ a ∈ l, a.2 ≤ (l.getLast hne).2 := by
  induction l with
  | nil => exact absurd rfl hne
  | cons y ys ih =>
    intro a ha
    cases ys with
    | nil =>
      rcases List.mem_singleton.1 ha with rfl
      exact le_refl _
    | cons z zs =>
      rw [List.getLast_cons (List.cons_ne_nil z zs)]
      rcases List.mem_cons.1 ha with rfl | ha2
      · exact List.rel_of_sorted_cons h _ (List.getLast_mem (List.cons_ne_nil z zs))
      · exact ih h.of_cons (List.cons_ne_nil z zs) a ha2

/-- Core properties of the layout over a key-sorted event list:
positions are monotone, bounded by [5, 95], a single event sits at 50,
and with at least two events all on one instant every position is 5. -/
theorem layoutOn_props (l : List (TimelineEvent × Int))
    (hs : l.Sorted (fun p q => p.2 ≤ q.2)) :
    List.Chain' (· ≤ ·) (layoutOn l) ∧
    (∀ p ∈ layoutOn l, 5 ≤ p ∧ p ≤ 95) ∧
    (l.length = 1 → layoutOn l = [50]) ∧
    ((∀ a ∈ l, ∀ b ∈ l, a.2 = b.2) → 2 ≤ l.length → ∀ p ∈ layoutOn l, p = 5) := by
  cases l with
  | nil => simp [layoutOn]
  | cons x xs =>
    have hstart : ∀ a ∈ x :: xs, x.2 ≤ a.2 := by
      intro a ha
      rcases List.mem_cons.1 ha with rfl | ha2
      · exact le_refl _
      · exact List.rel_of_sorted_cons hs a ha2
    have hend : ∀ a ∈ x :: xs, a.2 ≤ ((x :: xs).getLast (List.cons_ne_nil x xs)).2 :=
      sorted_le_getLast hs (List.cons_ne_nil x xs)
    set endD := ((x :: xs).getLast (List.cons_ne_nil x xs)).2 with hendD
    set range := if endD - x.2 = 0 then 1 else endD - x.2 with hrange
    have hse : x.2 ≤ endD := hend x (List.mem_cons_self x xs)
    have hrange_pos : 0 < range := by
      rw [hrange]
      split_ifs with h0
      · exact Int.one_pos
      · omega
    have hnum_le : ∀ a ∈ x :: xs, a.2 - x.2 ≤ range := by
      intro a ha
      rw [hrange]
      split_ifs with h0
      · have h1 := hstart a ha
        have h2 := hend a ha
        omega
      · have h2 := hend a ha
        omega
    have hrq : (0 : ℚ) < ((range : Int) : ℚ) := by exact_mod_cast hrange_pos
    have hpos_bounds : ∀ a ∈ x :: xs,
        5 ≤ positionPercent (x :: xs).length x.2 range a.2 ∧
        positionPercent (x :: xs).length x.2 range a.2 ≤ 95 := by
      intro a ha
      unfold positionPercent
      split_ifs with h1
      · constructor <;> norm_num
      · have hu0 : (0 : ℚ) ≤ ((a.2 - x.2 : Int) : ℚ) := by
          exact_mod_cast Int.sub_nonneg.2 (hstart a ha)
        have hur : ((a.2 - x.2 : Int) : ℚ) ≤ ((range : Int) : ℚ) := by
          exact_mod_cast hnum_le a ha
        have hdiv0 : (0 : ℚ) ≤ ((a.2 - x.2 : Int) : ℚ) / ((range : Int) : ℚ) :=
          div_nonneg hu0 (le_of_lt hrq)
        have hdiv1 : ((a.2 - x.2 : Int) : ℚ) / ((range : Int) : ℚ) ≤ 1 :=
          (div_le_one hrq).2 hur
        constructor <;> nlinarith
    have hmono : ∀ a b : TimelineEvent × Int, a.2 ≤ b.2 →
        positionPercent (x :: xs).length x.2 range a.2 ≤
        positionPercent (x :: xs).length x.2 range b.2 := by
      intro a b hab
      unfold positionPercent
      split_ifs with h1
      · exact le_refl _
      · have h2 : ((a.2 - x.2 : Int) : ℚ) ≤ ((b.2 - x.2 : Int) : ℚ) := by
          exact_mod_cast Int.sub_le_sub_right hab x.2
        gcongr
    refine ⟨?_, ?_, ?_, ?_⟩
    · rw [show layoutOn (x :: xs) =
        (x :: xs).map (fun e => positionPercent (x :: xs).length x.2 range e.2) from rfl]
      rw [List.chain'_map]
      refine List.Chain'.imp ?_ (List.Pairwise.chain' hs)
      exact fun a b hab => hmono a b hab
    · intro p hp
      rw [show layoutOn (x :: xs) =
        (x :: xs).map (fun e => positionPercent (x :: xs).length x.2 range e.2) from rfl] at hp
      obtain ⟨a, ha, rfl⟩ := List.mem_map.1 hp
      exact hpos_bounds a ha
    · intro hlen
      have hxs : xs = [] := by
        cases xs with
        | nil => rfl
        | cons z zs => simp at hlen
      subst hxs
      simp [layoutOn, positionPercent]
    · intro hall hlen p hp
      have hend_eq : endD = x.2 := by
        rw [hendD]
        exact hall _ (List.getLast_mem (List.cons_ne_nil x xs)) x (List.mem_cons_self x xs)
      have hr1 : range = 1 := by
        rw [hrange]
        simp [hend_eq]
      rw [show layoutOn (x :: xs) =
        (x :: xs).map (fun e => positionPercent (x :: xs).length x.2 range e.2) from rfl] at hp
      obtain ⟨a, ha, rfl⟩ := List.mem_map.1 hp
      have haeq : a.2 = x.2 := hall a ha x (List.mem_cons_self x xs)
      have hne1 : (x :: xs).length ≠ 1 := by omega
      unfold positionPercent
      rw [if_neg hne1, haeq, hr1]
      norm_num

/-- C5: over any event set, after excluding unparseable dates and
sorting ascending by parsed instant, positions are monotonically
non-decreasing, every position lies in [5, 95], a single remaining event
sits at 50, and when at least two events share one instant the divisor
degenerates to 1 and every event is placed at 5. -/
theorem timeline_layout_positions (native : String → Option Int) (events : List TimelineEvent) :
    List.Chain' (· ≤ ·) (timelinePositions native events) ∧
    (∀ p ∈ timelinePositions native events, 5 ≤ p ∧ p ≤ 95) ∧
    ((eventsWithDates native events).length = 1 → timelinePositions native events = [50]) ∧
    ((∀ a ∈ eventsWithDates native events, ∀ b ∈ eventsWithDates native events, a.2 = b.2) →
      2 ≤ (eventsWithDates native events).length →
      ∀ p ∈ timelinePositions native events, p = 5) :=
  layoutOn_props _ (sorted_sortByKey _)

/-- Witness for C5: a single dated event is positioned at 50, and with
two events on the same day the head position is 5. -/
theorem timeline_layout_positions_witness :
    timelinePositions (fun _ => none) [⟨"2023-06-21", "A", none⟩] = [50] ∧
    (timelinePositions (fun _ => none)
      [⟨"2023-06-21", "A", none⟩, ⟨"2023-06-21", "B", none⟩]).headI = 5 := by
  constructor
  · exact (timeline_layout_positions (fun _ => none) [⟨"2023-06-21", "A", none⟩]).2.2.1 (by decide)
  · have hlen : (timelinePositions (fun _ => none)
        [⟨"2023-06-21", "A", none⟩, ⟨"2023-06-21", "B", none⟩]).length = 2 := by decide
    have hmem : (timelinePositions (fun _ => none)
        [⟨"2023-06-21", "A", none⟩, ⟨"2023-06-21", "B", none⟩]).headI ∈
        timelinePositions (fun _ => none)
        [⟨"2023-06-21", "A", none⟩, ⟨"2023-06-21", "B", none⟩] := by
      cases hcase : timelinePositions (fun _ => none)
        [⟨"2023-06-21", "A", none⟩, ⟨"2023-06-21", "B", none⟩] with
      | nil => rw [hcase] at hlen; exact absurd hlen (by simp)
      | cons a l => simp
    exact (timeline_layout_positions (fun _ => none)
      [⟨"2023-06-21", "A", none⟩, ⟨"2023-06-21", "B", none⟩]).2.2.2
      (by decide) (by decide) _ hmem

/-! ## Citation-token scanning and rendering

Two variants exist in the source: the MVP assistant (`part_004`) splits on
`(\[[A-Z0-9-]+\])/g` and binds by exact id; the API-backed assistant
(`LegalAssistant.tsx`) splits on the bracket-or-section-reference regex
with the `i` flag and binds bracket tokens with
`l.id === lawId || l.id.includes(lawId)` and section references with
`l.id === searchId || l.id.startsWith(searchId)`.

The split regexes are embedded as explicit scanners with JavaScript
first-match-per-position semantics and capture-including split semantics
(the matched separator is kept in the output list).  As with the date
regexes, the classes around every greedy quantifier are disjoint from
what must follow, so maximal munch without backtracking is exact. -/

/-- The class `[A-Z0-9-]` (no `i` flag). -/
def isBracketIdCh (c : Char) : Bool :=
  ('A' ≤ c && c ≤ 'Z') || c.isDigit || c = '-'

/-- The class `[A-Z0-9-]` under the `i` flag: lowercase letters match too. -/
def isBracketIdChCI (c : Char) : Bool :=
  isBracketIdCh c || ('a' ≤ c && c ≤ 'z')

/-- Case-insensitive literal match at the current position: returns the
consumed original characters and the rest. -/
def stripLitCI : List Char → List Char → Option (List Char × List Char)
  | [], cs => some ([], cs)
  | _ :: _, [] => none
  | l :: ls, c :: cs =>
      if c.toLower == l.toLower then
        match stripLitCI ls cs with
        | some (t, r) => some (c :: t, r)
        | none => none
      else none

/-- Regex alternation at one position: try the first alternative, then
the second. -/
def orAttempt (m1 m2 : List Char → Option (List Char × List Char)) (cs : List Char) :
    Option (List Char × List Char) :=
  match m1 cs with
  | some r => some r
  | none => m2 cs

/-- `\[<class>+\]` at the current position: returns the whole bracketed
token and the rest. -/
def matchBracketTokenAt (cls : Char → Bool) (cs : List Char) :
    Option (List Char × List Char) :=
  match cs with
  | '[' :: rest =>
      if (rest.takeWhile cls).isEmpty then none
      else
        match rest.dropWhile cls with
        | ']' :: rest3 => some ('[' :: (rest.takeWhile cls ++ [']']), rest3)
        | _ => none
  | _ => none

/-- `(?:Section|Article|§)` case-insensitively, alternatives in source
order. -/
def matchKeywordAt : List Char → Option (List Char × List Char) :=
  orAttempt (stripLitCI "Section".data)
    (orAttempt (stripLitCI "Article".data) (stripLitCI "§".data))

/-- `(?:\.\d+)?`: greedy optional decimal part; always succeeds,
returning the consumed characters (possibly none) and the rest. -/
def matchDecimalOpt (cs : List Char) : List Char × List Char :=
  match cs with
  | '.' :: rest =>
      if (rest.takeWhile isDigitCh).isEmpty then ([], cs)
      else ('.' :: rest.takeWhile isDigitCh, rest.dropWhile isDigitCh)
  | _ => ([], cs)

/-- `(?:IRPA|IRPR|CA|CR)` case-insensitively, alternatives in source
order. -/
def matchCodeAt : List Char → Option (List Char × List Char) :=
  orAttempt (stripLitCI "IRPA".data)
    (orAttempt (stripLitCI "IRPR".data)
      (orAttempt (stripLitCI "CA".data) (stripLitCI "CR".data)))

/-- `(?:\s*(?:of|de)\s*(?:IRPA|IRPR|CA|CR))?`: greedy optional; always
succeeds, consuming either the whole group or nothing. -/
def matchOfGroupOpt (cs : List Char) : List Char × List Char :=
  match orAttempt (stripLitCI "of".data) (stripLitCI "de".data)
      (cs.dropWhile isSpaceCh) with
  | some (kw, r2) =>
      match matchCodeAt (r2.dropWhile isSpaceCh) with
      | some (cd, r4) =>
          (cs.takeWhile isSpaceCh ++ kw ++ r2.takeWhile isSpaceCh ++ cd, r4)
      | none => ([], cs)
  | none => ([], cs)

/-- The section-reference alternative of the split regex:
`(?:Section|Article|§)\s*\d+(?:\.\d+)?(?:\s*(?:of|de)\s*(?:IRPA|IRPR|CA|CR))?`. -/
def matchSectionTokenAt (cs : List Char) : Option (List Char × List Char) :=
  match matchKeywordAt cs with
  | none => none
  | some (kw, r1) =>
      if ((r1.dropWhile isSpaceCh).takeWhile isDigitCh).isEmpty then none
      else
        some (kw ++ r1.takeWhile isSpaceCh
            ++ (r1.dropWhile isSpaceCh).takeWhile isDigitCh
            ++ (matchDecimalOpt ((r1.dropWhile isSpaceCh).dropWhile isDigitCh)).1
            ++ (matchOfGroupOpt
                (matchDecimalOpt ((r1.dropWhile isSpaceCh).dropWhile isDigitCh)).2).1,
          (matchOfGroupOpt
            (matchDecimalOpt ((r1.dropWhile isSpaceCh).dropWhile isDigitCh)).2).2)

/-- One separator of the App split regex: the bracket alternative first,
then the section alternative. -/
def matchAppTokenAt : List Char → Option (List Char × List Char) :=
  orAttempt (matchBracketTokenAt isBracketIdChCI) matchSectionTokenAt

/-- Split-with-captures (fuelled): walk the text; at each position emit
the pending plain chunk and the separator when the token regex matches,
else advance one character.  Fuel `length + 1` always suffices; the
fuel-exhausted branch dumps the remainder so concatenation is preserved
for every fuel. -/
def splitGoC (tok : List Char → Option (List Char × List Char)) :
    Nat → List Char → List Char → List (List Char) → List (List Char)
  | 0, cs, acc, out => (acc.reverse ++ cs) :: out
  | Nat.succ fuel, cs, acc, out =>
      match cs with
      | [] => acc.reverse :: out
      | c :: rest =>
          match tok (c :: rest) with
          | some (t, after) => splitGoC tok fuel after [] (t :: acc.reverse :: out)
          | none => splitGoC tok fuel rest (c :: acc) out

/-- JavaScript `content.split(regex)` with a capturing separator. -/
def splitTokens (tok : List Char → Option (List Char × List Char)) (s : String) :
    List String :=
  ((splitGoC tok (s.data.length + 1) s.data [] []).reverse).map List.asString

/-- The MVP splitter: `content.split(/(\[[A-Z0-9-]+\])/g)`. -/
def splitTokensMvp (content : String) : List String :=
  splitTokens (matchBracketTokenAt isBracketIdCh) content

/-- The App splitter: the bracket-or-section-reference regex with `gi`. -/
def splitTokensApp (content : String) : List String :=
  splitTokens matchAppTokenAt content

/-- Concatenation of the rendered parts. -/
def joinParts : List String → String
  | [] => ""
  | p :: ps => p ++ joinParts ps

/-- The anchored per-part regex `^\[([A-Z0-9-]+)\]$` (case-sensitive in
both variants): the extracted identifier. -/
def idMatchAnchored (part : String) : Option String :=
  match part.data with
  | '[' :: rest =>
      let run := rest.takeWhile isBracketIdCh
      if run.isEmpty then none
      else
        match rest.dropWhile isBracketIdCh with
        | [']'] => some (String.mk run)
        | _ => none
  | _ => none

/-- ASCII uppercase, modelling `toUpperCase` on the code captures. -/
def asciiUpper (c : Char) : Char :=
  if 'a' ≤ c ∧ c ≤ 'z' then Char.ofNat (c.toNat - 32) else c

/-- String uppercase over ASCII. -/
def strUpper (s : String) : String := String.mk (s.data.map asciiUpper)

/-- Case-sensitive substring test: models `hay.includes(needle)`. -/
def strContains (hay needle : String) : Bool :=
  charsContain hay.data needle.data

/-- Case-sensitive prefix test: models `s.startsWith(pre)`. -/
def strStarts (s pre : String) : Bool := pre.data.isPrefixOf s.data

/-- The per-part section regex of `LegalAssistant.tsx`,
`(?:Section|Article|§)\s*(\d+(?:\.\d+)?)\s*(?:(?:of|de)\s*(IRPA|IRPR|CA|CR))?/i`,
attempted at one position: returns the number capture and the optional
code capture. -/
def matchSectionCapturesAt (cs : List Char) : Option (String × Option String) :=
  match matchKeywordAt cs with
  | none => none
  | some (_, r1) =>
      let r2 := r1.dropWhile isSpaceCh
      let ds := r2.takeWhile isDigitCh
      if ds.isEmpty then none
      else
        let r3 := r2.dropWhile isDigitCh
        let (dec, r4) := matchDecimalOpt r3
        let r5 := r4.dropWhile isSpaceCh
        let code :=
          match (match stripLitCI "of".data r5 with
                 | some r => some r
                 | none => stripLitCI "de".data r5) with
          | some (_, r6) =>
              let r7 := r6.dropWhile isSpaceCh
              match matchCodeAt r7 with
              | some (cd, _) => some (String.mk cd)
              | none => none
          | none => none
        some (String.mk (ds ++ dec), code)

/-- A law record of the client (`LawArticle` in `types.ts`). -/
structure LawArticle where
  id : String
  sectionNum : String
  title : String
  content : String
  dateEnacted : String
  statuteName : String
  sectionTitle : Option String
  lawType : Option String
deriving DecidableEq

/-- One rendered span of a message: plain text, a bracket-token law
button (displaying the bare identifier), or a section-reference button
(displaying the part verbatim). -/
inductive Rendered
  | plain (text : String)
  | lawButton (lawId : String) (law : LawArticle)
  | sectionButton (text : String) (law : LawArticle)
deriving DecidableEq

/-- The App bracket binding: `laws.find(l => l.id === lawId ||
l.id.includes(lawId))`. -/
def bindBracketId (laws : List LawArticle) (lawId : String) : Option LawArticle :=
  laws.find? fun l => l.id == lawId || strContains l.id lawId

/-- The MVP bracket binding: `laws.find(l => l.id === lawId)`. -/
def bindBracketIdMvp (laws : List LawArticle) (lawId : String) : Option LawArticle :=
  laws.find? fun l => l.id == lawId

/-- The App section-reference binding: build `searchId` from the
(uppercased, defaulted) code and the number, then
`laws.find(l => l.id === searchId || l.id.startsWith(searchId))`. -/
def sectionBindApp (laws : List LawArticle) (part : String) : Option LawArticle :=
  match firstMatch matchSectionCapturesAt part.data with
  | none => none
  | some (num, codeOpt) =>
      let lawCode := match codeOpt with
        | some cd => strUpper cd
        | none => "IRPA"
      let searchId := lawCode ++ "-" ++ num
      laws.find? fun l => l.id == searchId || strStarts l.id searchId

/-- The section-reference fallback of the App per-part renderer. -/
def renderSectionApp (laws : List LawArticle) (part : String) : Rendered :=
  match sectionBindApp laws part with
  | some law => .sectionButton part law
  | none => .plain part

/-- The App per-part renderer (`renderMessageContent` callback in
`LegalAssistant.tsx`): a bracket token that binds renders as a law
button; otherwise the section-reference match is attempted; otherwise the
part stays plain text. -/
def renderPartApp (laws : List LawArticle) (part : String) : Rendered :=
  match idMatchAnchored part with
  | some lawId =>
      match bindBracketId laws lawId with
      | some law => .lawButton lawId law
      | none => renderSectionApp laws part
  | none => renderSectionApp laws part

/-- The MVP per-part renderer (`renderMessageContent` callback in
`part_004`): only exact bracket-token binding, else plain text. -/
def renderPartMvp (laws : List LawArticle) (part : String) : Rendered :=
  match idMatchAnchored part with
  | some lawId =>
      match bindBracketIdMvp laws lawId with
      | some law => .lawButton lawId law
      | none => .plain part
  | none => .plain part

/-- `renderMessageContent` of `LegalAssistant.tsx`. -/
def renderMessageContentApp (laws : List LawArticle) (content : String) : List Rendered :=
  (splitTokensApp content).map (renderPartApp laws)

/-- `renderMessageContent` of the MVP assistant (`part_004`). -/
def renderMessageContentMvp (laws : List LawArticle) (content : String) : List Rendered :=
  (splitTokensMvp content).map (renderPartMvp laws)

/-! ## Splitter soundness: the parts reassemble the input -/

/-- Soundness of a positional matcher: token and rest reassemble the
input. -/
def MatcherSound (m : List Char → Option (List Char × List Char)) : Prop :=
  ∀ cs t r, m cs = some (t, r) → t ++ r = cs

/-- `stripLitCI` consumes an initial segment. -/
theorem stripLitCI_sound (lit : List Char) : MatcherSound (stripLitCI lit) := by
  induction lit with
  | nil =>
    intro cs t r h
    simp only [stripLitCI, Option.some.injEq, Prod.mk.injEq] at h
    rw [← h.1, ← h.2]
    simp
  | cons l ls ih =>
    intro cs t r h
    cases cs with
    | nil => simp [stripLitCI] at h
    | cons c cs2 =>
      by_cases hc : (c.toLower == l.toLower) = true
      · rw [show stripLitCI (l :: ls) (c :: cs2) =
            (if c.toLower == l.toLower then
              match stripLitCI ls cs2 with
              | some (t, r) => some (c :: t, r)
              | none => none
            else none) from rfl, if_pos hc] at h
        cases hrec : stripLitCI ls cs2 with
        | none => rw [hrec] at h; simp at h
        | some p =>
          obtain ⟨p1, p2⟩ := p
          rw [hrec] at h
          simp only [Option.some.injEq, Prod.mk.injEq] at h
          rw [← h.1, ← h.2]
          simpa using ih cs2 p1 p2 hrec
      · rw [show stripLitCI (l :: ls) (c :: cs2) =
            (if c.toLower == l.toLower then
              match stripLitCI ls cs2 with
              | some (t, r) => some (c :: t, r)
              | none => none
            else none) from rfl, if_neg hc] at h
        simp at h

/-- Alternation preserves matcher soundness. -/
theorem orAttempt_sound {m1 m2 : List Char → Option (List Char × List Char)}
    (h1 : MatcherSound m1) (h2 : MatcherSound m2) : MatcherSound (orAttempt m1 m2) := by
  intro cs t r h
  unfold orAttempt at h
  cases hm : m1 cs with
  | some p =>
    obtain ⟨p1, p2⟩ := p
    rw [hm] at h
    simp only [Option.some.injEq, Prod.mk.injEq] at h
    rw [← h.1, ← h.2]
    exact h1 cs p1 p2 hm
  | none =>
    rw [hm] at h
    exact h2 cs t r h

/-- The bracket-token matcher is sound. -/
theorem matchBracketTokenAt_sound (cls : Char → Bool) :
    MatcherSound (matchBracketTokenAt cls) := by
  intro cs t r h
  unfold matchBracketTokenAt at h
  split at h
  · next rest =>
    split at h
    · simp at h
    · split at h
      · next rest3 heq =>
        simp only [Option.some.injEq, Prod.mk.injEq] at h
        rw [← h.1, ← h.2]
        have hjoin := List.takeWhile_append_dropWhile (p := cls) (l := rest)
        rw [heq] at hjoin
        conv_rhs => rw [← hjoin]
        simp
      · simp at h
  · simp at h

theorem matchKeywordAt_sound : MatcherSound matchKeywordAt :=
  orAttempt_sound (stripLitCI_sound _)
    (orAttempt_sound (stripLitCI_sound _) (stripLitCI_sound _))

theorem matchCodeAt_sound : MatcherSound matchCodeAt :=
  orAttempt_sound (stripLitCI_sound _)
    (orAttempt_sound (stripLitCI_sound _)
      (orAttempt_sound (stripLitCI_sound _) (stripLitCI_sound _)))

/-- The optional decimal part reassembles the input. -/
theorem matchDecimalOpt_sound (cs : List Char) :
    (matchDecimalOpt cs).1 ++ (matchDecimalOpt cs).2 = cs := by
  unfold matchDecimalOpt
  split
  · next rest =>
    split
    · simp
    · simp [List.takeWhile_append_dropWhile]
  · simp

/-- The optional of-group reassembles the input. -/
theorem matchOfGroupOpt_sound (cs : List Char) :
    (matchOfGroupOpt cs).1 ++ (matchOfGroupOpt cs).2 = cs := by
  unfold matchOfGroupOpt
  split
  · next kw r2 heq =>
    split
    · next cd r4 heq2 =>
      have e1 : kw ++ r2 = cs.dropWhile isSpaceCh :=
        orAttempt_sound (stripLitCI_sound _) (stripLitCI_sound _) _ _ _ heq
      have e2 : cd ++ r4 = r2.dropWhile isSpaceCh := matchCodeAt_sound _ _ _ heq2
      have e3 := List.takeWhile_append_dropWhile (p := isSpaceCh) (l := cs)
      have e4 := List.takeWhile_append_dropWhile (p := isSpaceCh) (l := r2)
      simp only [List.append_assoc]
      rw [e2, e4, e1, e3]
    · simp
  · simp

/-- The section-reference matcher is sound. -/
theorem matchSectionTokenAt_sound : MatcherSound matchSectionTokenAt := by
  intro cs t r h
  unfold matchSectionTokenAt at h
  split at h
  · simp at h
  · next kw r1 heq =>
    split at h
    · simp at h
    · simp only [Option.some.injEq, Prod.mk.injEq] at h
      rw [← h.1, ← h.2]
      have e1 : kw ++ r1 = cs := matchKeywordAt_sound _ _ _ heq
      have e2 := List.takeWhile_append_dropWhile (p := isSpaceCh) (l := r1)
      have e3 := List.takeWhile_append_dropWhile (p := isDigitCh)
        (l := r1.dropWhile isSpaceCh)
      have e4 := matchDecimalOpt_sound ((r1.dropWhile isSpaceCh).dropWhile isDigitCh)
      have e5 := matchOfGroupOpt_sound
        (matchDecimalOpt ((r1.dropWhile isSpaceCh).dropWhile isDigitCh)).2
      simp only [List.append_assoc]
      rw [e5, e4, e3, e2, e1]

theorem matchAppTokenAt_sound : MatcherSound matchAppTokenAt :=
  orAttempt_sound (matchBracketTokenAt_sound _) matchSectionTokenAt_sound

/-- The fuelled splitter preserves concatenation for any sound matcher,
any fuel. -/
theorem splitGoC_join (tok : List Char → Option (List Char × List Char))
    (hs : MatcherSound tok) :
    ∀ (fuel : Nat) (cs acc : List Char) (out : List (List Char)),
      ((splitGoC tok fuel cs acc out).reverse).flatten =
        out.reverse.flatten ++ acc.reverse ++ cs := by
  intro fuel
  induction fuel with
  | zero =>
    intro cs acc out
    simp [splitGoC]
  | succ fuel ih =>
    intro cs acc out
    cases cs with
    | nil => simp [splitGoC]
    | cons c rest =>
      cases htok : tok (c :: rest) with
      | some p =>
        obtain ⟨t, after⟩ := p
        simp only [splitGoC, htok]
        rw [ih after [] (t :: acc.reverse :: out)]
        have := hs _ _ _ htok
        simp [← this]
      | none =>
        simp only [splitGoC, htok]
        rw [ih rest (c :: acc) out]
        simp

/-- Lists-to-strings join compatibility. -/
theorem joinParts_map_asString (L : List (List Char)) :
    joinParts (L.map List.asString) = L.flatten.asString := by
  induction L with
  | nil => rfl
  | cons x xs ih =>
    show x.asString ++ joinParts (xs.map List.asString) = (x ++ xs.flatten).asString
    rw [ih]
    rfl

/-- Concatenating the split parts gives back the message. -/
theorem joinParts_splitTokens (tok : List Char → Option (List Char × List Char))
    (hs : MatcherSound tok) (s : String) : joinParts (splitTokens tok s) = s := by
  unfold splitTokens
  rw [joinParts_map_asString, splitGoC_join tok hs]
  rfl

/-! ## Claim theorems: citation resolution -/

/-- Plain output of the App renderer always carries the part verbatim. -/
theorem renderPartApp_plain_text (laws : List LawArticle) (part s : String)
    (h : renderPartApp laws part = .plain s) : s = part := by
  unfold renderPartApp renderSectionApp at h
  split at h
  · split at h
    · simp at h
    · split at h
      · simp at h
      · simp only [Rendered.plain.injEq] at h
        exact h.symm
  · split at h
    · simp at h
    · simp only [Rendered.plain.injEq] at h
      exact h.symm

/-- Unbound parts of the App renderer stay plain. -/
theorem renderPartApp_unbound (laws : List LawArticle) (part : String)
    (h1 : ∀ lawId, idMatchAnchored part = some lawId → bindBracketId laws lawId = none)
    (h2 : sectionBindApp laws part = none) :
    renderPartApp laws part = .plain part := by
  unfold renderPartApp renderSectionApp
  split
  · next lawId hid =>
    rw [h1 lawId hid, h2]
  · rw [h2]

/-- Unbound parts of the MVP renderer stay plain. -/
theorem renderPartMvp_unbound (laws : List LawArticle) (part : String)
    (h1 : ∀ lawId, idMatchAnchored part = some lawId → bindBracketIdMvp laws lawId = none) :
    renderPartMvp laws part = .plain part := by
  unfold renderPartMvp
  split
  · next lawId hid => rw [h1 lawId hid]
  · rfl

/-- C7: in both assistant variants, the split parts concatenate back to
the full original message (no token is ever dropped), a part that binds
no law renders as plain text carrying exactly its original characters,
and plain output never alters the text — so unresolved tokens are
rendered verbatim in place, with no error marker substituted. -/
theorem unresolved_tokens_plain (laws : List LawArticle) (content part s : String) :
    joinParts (splitTokensApp content) = content ∧
    joinParts (splitTokensMvp content) = content ∧
    (renderPartApp laws part = .plain s → s = part) ∧
    ((∀ lawId, idMatchAnchored part = some lawId → bindBracketId laws lawId = none) →
      sectionBindApp laws part = none →
      renderPartApp laws part = .plain part) ∧
    ((∀ lawId, idMatchAnchored part = some lawId → bindBracketIdMvp laws lawId = none) →
      renderPartMvp laws part = .plain part) :=
  ⟨joinParts_splitTokens _ matchAppTokenAt_sound content,
   joinParts_splitTokens _ (matchBracketTokenAt_sound _) content,
   renderPartApp_plain_text laws part s,
   renderPartApp_unbound laws part,
   renderPartMvp_unbound laws part⟩

/-- Witness for C7: with no known laws, the bracket token of the example
message renders as plain text, and the App split of the example message
reassembles to the original. -/
theorem unresolved_tokens_plain_witness :
    renderPartApp [] "[CRIM-CODE-229]" = .plain "[CRIM-CODE-229]" ∧
    joinParts (splitTokensApp "See [CRIM-CODE-229] for details.") =
      "See [CRIM-CODE-229] for details." := by
  constructor
  · exact (unresolved_tokens_plain [] "" "[CRIM-CODE-229]" "").2.2.2.1
      (by decide) (by decide)
  · exact (unresolved_tokens_plain [] "See [CRIM-CODE-229] for details." "" "").1

/-- The known law of the C2 example. -/
def crimLaw : LawArticle :=
  { id := "CRIM-CODE-229", sectionNum := "229", title := "Culpable homicide is murder",
    content := "Culpable homicide is murder where the person who causes death means to cause it.",
    dateEnacted := "1985-12-12", statuteName := "Criminal Code (R.S.C., 1985, c. C-46)",
    sectionTitle := none, lawType := none }

/-- C2 counterexample: in the App resolver the bracketed token `[CODE]`
binds to the law `CRIM-CODE-229` although no law has id `CODE`: bracket
binding is by substring containment (`l.id.includes(lawId)`), not by
exact id match as claimed. -/
theorem bracket_substring_binding_cex :
    renderMessageContentApp [crimLaw] "See [CODE] now." =
      [.plain "See ", .lawButton "CODE" crimLaw, .plain " now."] ∧
    crimLaw.id ≠ "CODE" ∧
    bindBracketIdMvp [crimLaw] "CODE" = none :=
  ⟨by decide, by decide, by decide⟩

/-- C2 amended: a bracketed token is bound case-sensitively against the
known law set — in the MVP resolver by exact id equality, in the App
resolver by id equality or substring containment of the token in a law
id (every exact match binds, but proper substrings bind too); on the
example text with known law CRIM-CODE-229, both variants bind exactly
that token and leave the surrounding text unchanged. -/
theorem bracket_binding_amended (laws : List LawArticle) (lawId : String) (law : LawArticle) :
    (bindBracketId laws lawId = some law →
      law ∈ laws ∧ (law.id = lawId ∨ strContains law.id lawId = true)) ∧
    (bindBracketIdMvp laws lawId = some law → law ∈ laws ∧ law.id = lawId) ∧
    ((∃ l ∈ laws, l.id = lawId) → bindBracketId laws lawId ≠ none) ∧
    renderMessageContentApp [crimLaw] "See [CRIM-CODE-229] for details." =
      [.plain "See ", .lawButton "CRIM-CODE-229" crimLaw, .plain " for details."] ∧
    renderMessageContentMvp [crimLaw] "See [CRIM-CODE-229] for details." =
      [.plain "See ", .lawButton "CRIM-CODE-229" crimLaw, .plain " for details."] := by
  refine ⟨fun h => ?_, fun h => ?_, fun h => ?_, by decide, by decide⟩
  · unfold bindBracketId at h
    refine ⟨List.mem_of_find?_eq_some h, ?_⟩
    have hp := List.find?_some h
    cases (Bool.or_eq_true _ _).mp hp with
    | inl h1 => exact Or.inl (eq_of_beq h1)
    | inr h1 => exact Or.inr h1
  · unfold bindBracketIdMvp at h
    have hp := List.find?_some h
    exact ⟨List.mem_of_find?_eq_some h, eq_of_beq hp⟩
  · obtain ⟨l, hl, hid⟩ := h
    intro hnone
    rw [bindBracketId, List.find?_eq_none] at hnone
    exact hnone l hl (by simp [hid])

/-- Witness for C2 (amended): the substring binding on token "CODE" and
the exact binding on token "CRIM-CODE-229", at the singleton law set. -/
theorem bracket_binding_amended_witness :
    (crimLaw ∈ [crimLaw] ∧ (crimLaw.id = "CODE" ∨ strContains crimLaw.id "CODE" = true)) ∧
    (crimLaw ∈ [crimLaw] ∧ crimLaw.id = "CRIM-CODE-229") ∧
    bindBracketId [crimLaw] "CRIM-CODE-229" ≠ none :=
  ⟨(bracket_binding_amended [crimLaw] "CODE" crimLaw).1 (by decide),
   (bracket_binding_amended [crimLaw] "CRIM-CODE-229" crimLaw).2.1 (by decide),
   (bracket_binding_amended [crimLaw] "CRIM-CODE-229" crimLaw).2.2.1
     ⟨crimLaw, by simp, rfl⟩⟩

end LexOrigin
